import Mathlib

/-!
Verification of the Barnswallows Invitational draft-and-score application
(`src/streamlit_app.py`) against its natural-language specification.

Python strings are modelled as lists of code points (`Str`), Python dicts as
association lists in insertion order, and the spreadsheet tables as lists of
rows.  Machine integers do not overflow in this program, so `Nat` is used
throughout.  Python `round` applies round-half-to-even; `roundMin` reproduces
it exactly on the rational `ms / 60000` (the float division in the source is
exact at every half-way point reachable for realistic millisecond values).
-/

namespace Barnswallow

/-- A Python string, modelled as its list of Unicode code points. -/
abbrev Str := List ℕ

/-- Embed a Lean string literal as a `Str` (list of code points). -/
def pyStr (s : String) : Str := s.data.map Char.toNat

/-- Code points stripped by Python `str.strip()` (the ASCII whitespace that
can occur in the data handled by this program). -/
def isSpace (c : ℕ) : Bool :=
  c == 32 || c == 9 || c == 10 || c == 11 || c == 12 || c == 13

/-- ASCII case folding of one code point, as Python `str.lower()` acts on the
characters occurring in this application. -/
def lowerChar (c : ℕ) : ℕ := if 65 ≤ c ∧ c ≤ 90 then c + 32 else c

/-- Python `s.lower()`. -/
def pyLower (s : Str) : Str := s.map lowerChar

/-- Python `s.strip()`: drop leading and trailing whitespace. -/
def pyStrip (s : Str) : Str := (s.dropWhile isSpace).rdropWhile isSpace

/-- `ALIAS_MAP` from the source: lowercase alternate spellings mapped to the
canonical lowercase title. -/
def ALIAS_MAP : List (Str × Str) :=
  [(pyStr "2001", pyStr "also sprach zarathustra"),
   (pyStr "yem", pyStr "you enjoy myself")]

/-- Python `ALIAS_MAP.get(k, k)`. -/
def aliasGet (k : Str) : Str :=
  match ALIAS_MAP.lookup k with
  | some v => v
  | none => k

/-- The title normalization used by `write_pick` and for played titles in
`score_show`: `ALIAS_MAP.get(song.strip().lower(), song.strip().lower())`. -/
def normalize (s : Str) : Str := aliasGet (pyLower (pyStrip s))

/-- Python `s.split(sep)[0]` for a non-empty separator: the text before the
first occurrence of `sep`, or all of `s` when `sep` does not occur. -/
def splitFirst (sep : Str) : Str → Str
  | [] => []
  | c :: rest => if sep.isPrefixOf (c :: rest) then [] else c :: splitFirst sep rest

/-- Decimal rendering of a natural number, as Python string formatting. -/
def natToStr (n : ℕ) : Str := (Nat.toDigits 10 n).map Char.toNat

/-- Python `round(ms / 60000)`: nearest whole minute, ties to even. -/
def roundMin (ms : ℕ) : ℕ :=
  let q := ms / 60000
  let r := ms % 60000
  if r < 30000 then q
  else if 30000 < r then q + 1
  else if q % 2 = 0 then q else q + 1

/-- A setlist tag: `name`, and the free-text note where `[]` models an absent
or empty (falsy) `notes` field. -/
structure Tag where
  name : Str
  notes : Str
deriving DecidableEq, Repr

/-- A setlist track: display title, duration in milliseconds
(`track.get("duration", 0)`), and its tags. -/
structure Track where
  title : Str
  duration : ℕ
  tags : List Tag
deriving DecidableEq, Repr

/-- One scoring event produced by `score_show`. -/
structure Event where
  key : Str
  points : ℕ
  label : Str
deriving DecidableEq, Repr

/-- The state threaded through the track loop of `score_show`: events emitted
so far, the `songs_played_this_show` set (as a duplicate-free list) and the
`reprise_counters` dict. -/
structure ScanState where
  events : List Event
  seen : List Str
  repC : List (Str × ℕ)
deriving DecidableEq, Repr

/-- Upsert into an association list, keeping the position of an existing key
(Python dict assignment). -/
def setVal (m : List (Str × ℕ)) (k : Str) (v : ℕ) : List (Str × ℕ) :=
  match m with
  | [] => [(k, v)]
  | (k0, v0) :: rest => if k0 == k then (k0, v) :: rest else (k0, v0) :: setVal rest k v

/-- The tease branch of the track loop: a tag whose lowercased name is
`"tease"` with a truthy note yields a 1-point event for the teased title,
taken before the `" by "` delimiter and stripped. -/
def teaseOf (played_title : Str) (tag : Tag) : Option Event :=
  if pyLower tag.name == pyStr "tease" && !(tag.notes == []) then
    let tease_note := pyStrip tag.notes
    let teased_title := pyStrip (splitFirst (pyStr " by ") tease_note)
    let teased_key := aliasGet (pyLower teased_title)
    some ⟨teased_key, 1, teased_title ++ pyStr " (Tease in " ++ played_title ++ pyStr ")"⟩
  else none

/-- One iteration of the track loop of `score_show`: first occurrence of the
SongKey emits a Play event (base 4, +2 when the rounded minutes lie in
[20,30), +3 when the rounded minutes are at least 30), a repeated SongKey
emits a flat 2-point Reprise event, and every tease tag on the track appends
its Tease event. -/
def processTrack (st : ScanState) (track : Track) : ScanState :=
  let played_title := pyStrip track.title
  let played_key := aliasGet (pyLower played_title)
  let duration_min := roundMin track.duration
  let st1 : ScanState :=
    if st.seen.contains played_key then
      let reprise_count := (match st.repC.lookup played_key with
        | some n => n
        | none => 0) + 1
      ⟨st.events ++ [⟨played_key, 2,
          played_title ++ pyStr " (Reprise #" ++ natToStr reprise_count ++ pyStr ")"⟩],
        st.seen,
        setVal st.repC played_key reprise_count⟩
    else
      let pts := if 20 ≤ duration_min ∧ duration_min < 30 then 4 + 2
        else if 30 ≤ duration_min then 4 + 3
        else 4
      ⟨st.events ++ [⟨played_key, pts,
          played_title ++ pyStr " (" ++ natToStr duration_min ++ pyStr " min)"⟩],
        st.seen ++ [played_key],
        st.repC⟩
  ⟨st1.events ++ track.tags.filterMap (teaseOf played_title), st1.seen, st1.repC⟩

/-- The full event list of a show (Step 1 of `score_show`). -/
def score_show_events (tracks : List Track) : List Event :=
  (tracks.foldl processTrack ⟨[], [], []⟩).events

/-- The draft board: rows of player name and pick cells. -/
abbrev Board := List (Str × List Str)

/-- The per-player breakdown dict: player to (event label to points). -/
abbrev Breakdown := List (Str × List (Str × ℕ))

/-- The per-player totals dict. -/
abbrev Totals := List (Str × ℕ)

/-- Keys of a duplicate-carrying list in Python dict-comprehension order:
first occurrence kept. -/
def dedupFirst : List Str → List Str
  | [] => []
  | p :: ps => p :: (dedupFirst ps).filter (fun q => !(q == p))

/-- Python `\x7bp: v for p in ps\x7d`. -/
def dictInit {α : Type} (ps : List Str) (v : α) : List (Str × α) :=
  (dedupFirst ps).map (fun p => (p, v))

/-- Apply `f` to the value at the first occurrence of key `k` (Python mutating
dict access; in the tally loop the key is always present, having been
initialized from the same board column). -/
def modifyVal {α : Type} (m : List (Str × α)) (k : Str) (f : α → α) : List (Str × α) :=
  match m with
  | [] => []
  | (k0, v) :: rest => if k0 == k then (k0, f v) :: rest else (k0, v) :: modifyVal rest k f

/-- `breakdown[player][label] = breakdown[player].get(label, 0) + pts`. -/
def bumpLabel (m : List (Str × ℕ)) (label : Str) (pts : ℕ) : List (Str × ℕ) :=
  match m with
  | [] => [(label, pts)]
  | (k, v) :: rest => if k == label then (k, v + pts) :: rest else (k, v) :: bumpLabel rest label pts

/-- Sum of the values of a label-to-points dict. -/
def sumValues (m : List (Str × ℕ)) : ℕ := (m.map Prod.snd).sum

/-- A breakdown row and a totals row are consistent when they name the same
player and the points of the breakdown sum to the total. -/
def rowConsistent (b : Str × List (Str × ℕ)) (t : Str × ℕ) : Prop :=
  b.1 = t.1 ∧ sumValues b.2 = t.2

/-- The track title of the C7 scenario, code point 39 being the apostrophe
of the song title. -/
def mikes_title : Str := pyStr "Mike" ++ 39 :: pyStr "s Song"

/-- The innermost statement of the tally loop: when the event key matches the
pick key, add the points to the player total and into the player breakdown
under the event label. -/
def tallyStep (player : Str) (pick_key : Str) (ev : Event) (acc : Breakdown × Totals) :
    Breakdown × Totals :=
  if ev.key == pick_key then
    (modifyVal acc.1 player (fun m => bumpLabel m ev.label ev.points),
     modifyVal acc.2 player (fun v => v + ev.points))
  else acc

/-- Processing of one pick cell: skipped when the stripped cell is empty,
otherwise every event is checked against the alias-resolved lowercased pick. -/
def tallyPick (events : List Event) (player : Str) (acc : Breakdown × Totals) (pick : Str) :
    Breakdown × Totals :=
  if pyStrip pick == [] then acc
  else events.foldl (fun a ev => tallyStep player (aliasGet (pyLower pick)) ev a) acc

/-- Processing of one board row. -/
def tallyRow (events : List Event) (acc : Breakdown × Totals) (row : Str × List Str) :
    Breakdown × Totals :=
  row.2.foldl (tallyPick events row.1) acc

/-- Step 2 of `score_show`: tally events against every board row, starting
from dicts holding every board player with 0 points and an empty breakdown. -/
def tally (events : List Event) (board : Board) : Breakdown × Totals :=
  board.foldl (tallyRow events)
    (dictInit (board.map Prod.fst) [], dictInit (board.map Prod.fst) 0)

/-- The UI message emitted by the two failure branches of `score_show`
(`st.error` on a network failure, `st.warning` on an absent or empty
payload). -/
inductive ScoreMsg
  | upstreamError
  | noSetlistData
deriving DecidableEq, Repr

/-- Outcome of the setlist fetch: a raised `RequestException`, or a JSON
payload whose `tracks` field is absent (`none`) or present. -/
inductive FetchResult
  | netError
  | ok (tracks : Option (List Track))
deriving DecidableEq, Repr

/-- The observable behaviour of `score_show` with `return_breakdown=True`:
the emitted UI message, if any, plus the returned pair of dicts. -/
structure ScoreResult where
  message : Option ScoreMsg
  breakdown : Breakdown
  totals : Totals
deriving DecidableEq, Repr

/-- `score_show`: both failure branches return empty dicts; otherwise the
events of the show are tallied against the draft board. -/
def score_show (fetch : FetchResult) (board : Board) : ScoreResult :=
  match fetch with
  | .netError => ⟨some .upstreamError, [], []⟩
  | .ok none => ⟨some .noSetlistData, [], []⟩
  | .ok (some tracks) =>
    if tracks.isEmpty then ⟨some .noSetlistData, [], []⟩
    else
      ⟨none, (tally (score_show_events tracks) board).1,
        (tally (score_show_events tracks) board).2⟩

/-- `next_pick_player` from the source: snake-draft turn computation. -/
def next_pick_player (order : List Str) (total_picks : ℕ) : Str × ℕ :=
  let n := order.length
  if n = 0 then (pyStr "N/A", 0)
  else
    let pick_number := total_picks + 1
    let round_number := (pick_number + n - 1) / n
    let position_in_round := (pick_number - 1) % n
    let player_index :=
      if round_number % 2 = 0 then n - 1 - position_in_round
      else position_in_round
    (order.getD player_index (pyStr "N/A"), pick_number)

/-- Length of `HEADER_ROW` (`["Player"] + 12 pick slots`). -/
def HEADER_ROW_length : ℕ := 13

/-- `write_pick` from the source: find the player row, and when a slot is
free write the normalized song into the next column.  No check against
already-drafted songs is performed here. -/
def write_pick (board : Board) (player : Str) (song : Str) : Bool × Board :=
  let normalized_song := aliasGet (pyLower (pyStrip song))
  match board.findIdx? (fun row => row.1 == player) with
  | none => (false, board)
  | some i =>
    let row := board.getD i (player, [])
    if row.2.length + 2 > HEADER_ROW_length then (false, board)
    else (true, board.set i (row.1, row.2 ++ [normalized_song]))

/-- A ledger row of the Scores worksheet: show date, player, points. -/
abbrev LedgerRow := Str × Str × ℕ

/-- `append_scores` from the source: one row per player is appended
unconditionally. -/
def append_scores (ledger : List LedgerRow) (date : Str) (scores : List (Str × ℕ)) :
    List LedgerRow :=
  ledger ++ scores.map (fun ps => (date, ps.1, ps.2))

/-- `TOUR_START_DATE` (2025-06-19), dates encoded as yyyymmdd numbers so that
the calendar order is the numeric order. -/
def TOUR_START_DATE : ℕ := 20250619

/-- A parsed Scores record: show date (yyyymmdd), player, points. -/
abbrev ScoreRecord := ℕ × Str × ℕ

/-- Lexicographic order on code-point lists (the pandas groupby key order for
the player strings occurring here). -/
def strLt : Str → Str → Bool
  | [], [] => false
  | [], _ :: _ => true
  | _ :: _, [] => false
  | a :: as, b :: bs => if a < b then true else if b < a then false else strLt as bs

/-- Insertion into a list sorted by strictly descending points, placed after
existing entries with equal points. -/
def insertDesc (x : Str × ℕ) : List (Str × ℕ) → List (Str × ℕ)
  | [] => [x]
  | y :: ys => if y.2 < x.2 then x :: y :: ys else y :: insertDesc x ys

/-- Sort by descending points.  The source sorts with the pandas default
quicksort, which fixes no order between tied totals; the theorems below only
evaluate this at inputs without ties, where every comparison sort agrees. -/
def sortPointsDesc (l : List (Str × ℕ)) : List (Str × ℕ) :=
  l.foldl (fun acc x => insertDesc x acc) []

/-- Insertion sort by `strLt` (the ascending key order of pandas groupby). -/
def insertAsc (x : Str) : List Str → List Str
  | [] => [x]
  | y :: ys => if strLt x y then x :: y :: ys else y :: insertAsc x ys

/-- The distinct players of the filtered records, in groupby key order. -/
def playersSorted (rows : List ScoreRecord) : List Str :=
  (dedupFirst (rows.map (fun r => r.2.1))).foldl (fun acc p => insertAsc p acc) []

/-- `groupby(Player).Points.sum()`. -/
def groupSum (rows : List ScoreRecord) : List (Str × ℕ) :=
  (playersSorted rows).map (fun p =>
    (p, ((rows.filter (fun r => r.2.1 == p)).map (fun r => r.2.2)).sum))

/-- The standings block of tab 3.  `records` models the return of
`get_all_records(), which contains no header row; the source nevertheless
treats index 0 as a header: it reports no data when at most one record
exists and drops the first record (`records[1:]`) before filtering to
`Show Date >= TOUR_START_DATE` and aggregating. -/
def standingsBlock (records : List ScoreRecord) : Option (List (Str × ℕ)) :=
  if records.length ≤ 1 then none
  else
    let rows := records.drop 1
    let tour := rows.filter (fun r => TOUR_START_DATE ≤ r.1)
    if tour.isEmpty then none
    else some (sortPointsDesc (groupSum tour))

/-- Modelled from the spec: no bustout handling exists in the `src/` revision
of `score_show` (the spec unifies three revisions and adopts the richest
rules; the bustout rule is absent from the revision shipped under `src/`).
Per the spec, a tag identified as a bustout on a track adds a fixed 10-point
bonus to that track.  This recognizer follows the tease recognizer of the
source: tag name compared case-insensitively. -/
def hasBustoutTag (track : Track) : Bool :=
  track.tags.any (fun tag => pyLower tag.name == pyStr "bustout")

/-- Modelled from the spec: the track loop with the bustout rule of the spec
added.  Identical to `processTrack` except that the 10-point bonus is added
to the points of the Play or Reprise event of a track carrying a bustout
tag; no separate event is created. -/
def processTrackB (st : ScanState) (track : Track) : ScanState :=
  let bonus := if hasBustoutTag track then 10 else 0
  let played_title := pyStrip track.title
  let played_key := aliasGet (pyLower played_title)
  let duration_min := roundMin track.duration
  let st1 : ScanState :=
    if st.seen.contains played_key then
      let reprise_count := (match st.repC.lookup played_key with
        | some n => n
        | none => 0) + 1
      ⟨st.events ++ [⟨played_key, 2 + bonus,
          played_title ++ pyStr " (Reprise #" ++ natToStr reprise_count ++ pyStr ")"⟩],
        st.seen,
        setVal st.repC played_key reprise_count⟩
    else
      let pts := if 20 ≤ duration_min ∧ duration_min < 30 then 4 + 2
        else if 30 ≤ duration_min then 4 + 3
        else 4
      ⟨st.events ++ [⟨played_key, pts + bonus,
          played_title ++ pyStr " (" ++ natToStr duration_min ++ pyStr " min)"⟩],
        st.seen ++ [played_key],
        st.repC⟩
  ⟨st1.events ++ track.tags.filterMap (teaseOf played_title), st1.seen, st1.repC⟩


/-! ## Helper lemmas -/

theorem lowerChar_idem (c : ℕ) : lowerChar (lowerChar c) = lowerChar c := by
  unfold lowerChar
  by_cases h : 65 ≤ c ∧ c ≤ 90
  · rw [if_pos h, if_neg (by omega)]
  · rw [if_neg h, if_neg h]

theorem isSpace_lowerChar (c : ℕ) : isSpace (lowerChar c) = isSpace c := by
  unfold lowerChar
  split
  · next h =>
    have h1 : isSpace (c + 32) = false := by simp [isSpace]; omega
    have h2 : isSpace c = false := by simp [isSpace]; omega
    rw [h1, h2]
  · rfl

theorem pyLower_idem (s : Str) : pyLower (pyLower s) = pyLower s := by
  unfold pyLower
  rw [List.map_map]
  exact List.map_congr_left (fun c _ => lowerChar_idem c)

theorem dropWhile_pyStrip (s : Str) :
    List.dropWhile isSpace (pyStrip s) = pyStrip s := by
  unfold pyStrip
  set t := List.dropWhile isSpace s with ht
  have htt : List.dropWhile isSpace t = t := List.dropWhile_idempotent isSpace s
  rw [List.dropWhile_eq_self_iff]
  intro hl
  have hpre : t.rdropWhile isSpace <+: t := List.rdropWhile_prefix isSpace t
  have hlt : 0 < t.length := lt_of_lt_of_le hl hpre.length_le
  have hget : (t.rdropWhile isSpace).get ⟨0, hl⟩ = t.get ⟨0, hlt⟩ := by
    simpa using hpre.getElem hl
  rw [hget]
  exact (List.dropWhile_eq_self_iff.mp htt) hlt

theorem pyStrip_idem (s : Str) : pyStrip (pyStrip s) = pyStrip s := by
  show List.rdropWhile isSpace (List.dropWhile isSpace (pyStrip s)) = pyStrip s
  rw [dropWhile_pyStrip]
  show List.rdropWhile isSpace (List.rdropWhile isSpace (List.dropWhile isSpace s))
      = List.rdropWhile isSpace (List.dropWhile isSpace s)
  exact List.rdropWhile_idempotent isSpace _

theorem dropWhile_map_lower (s : Str) :
    List.dropWhile isSpace (s.map lowerChar) = (List.dropWhile isSpace s).map lowerChar := by
  induction s with
  | nil => rfl
  | cons a t ih =>
    by_cases h : isSpace a
    · simp [List.dropWhile_cons, isSpace_lowerChar, h, ih]
    · simp [List.dropWhile_cons, isSpace_lowerChar, h]

theorem pyStrip_pyLower (s : Str) : pyStrip (pyLower s) = pyLower (pyStrip s) := by
  unfold pyStrip pyLower List.rdropWhile
  rw [dropWhile_map_lower, ← List.map_reverse, dropWhile_map_lower, ← List.map_reverse]

theorem normalize_notAlias (s : Str) (h : ALIAS_MAP.lookup (pyLower (pyStrip s)) = none) :
    normalize s = pyLower (pyStrip s) := by
  unfold normalize aliasGet
  rw [h]

theorem pyKey_idem (s : Str) :
    pyLower (pyStrip (pyLower (pyStrip s))) = pyLower (pyStrip s) := by
  rw [pyStrip_pyLower, pyStrip_idem, pyLower_idem]

theorem ceil_div_nat (m n : ℕ) (hn : 0 < n) :
    ⌈(m : ℚ) / (n : ℚ)⌉ = ((m + n - 1) / n : ℕ) := by
  have h := Nat.div_add_mod (m + n - 1) n
  set q := (m + n - 1) / n with hq
  set r := (m + n - 1) % n with hr
  have hrn : r < n := Nat.mod_lt _ hn
  have key : n * q + r + 1 = m + n := by omega
  have hnQ : (0 : ℚ) < (n : ℚ) := by exact_mod_cast hn
  have keyQ : (n : ℚ) * q + r + 1 = m + n := by exact_mod_cast key
  have hrnQ : (r : ℚ) + 1 ≤ n := by exact_mod_cast hrn
  have hr0 : (0 : ℚ) ≤ r := by positivity
  rw [Int.ceil_eq_iff]
  constructor
  · push_cast
    rw [lt_div_iff₀ hnQ]
    nlinarith [keyQ, hr0, hnQ]
  · push_cast
    rw [div_le_iff₀ hnQ]
    nlinarith [keyQ, hrnQ]

/-! ## Claim theorems -/

/-- C6: the title normalization of the source (trim whitespace, lowercase,
alias-map substitution) is idempotent on every string, and under the
configured `ALIAS_MAP` the titles " YEM ", "yem" and "You Enjoy Myself" all
normalize to the same SongKey. -/
theorem normalize_idempotent :
    (∀ s : Str, normalize (normalize s) = normalize s) ∧
    normalize (pyStr " YEM ") = normalize (pyStr "yem") ∧
    normalize (pyStr "yem") = normalize (pyStr "You Enjoy Myself") := by
  refine ⟨fun s => ?_, by decide, by decide⟩
  cases h : ALIAS_MAP.lookup (pyLower (pyStrip s)) with
  | none =>
    rw [normalize_notAlias s h]
    have hkey := pyKey_idem s
    unfold normalize aliasGet
    rw [hkey, h]
  | some v =>
    have hv : normalize s = v := by
      unfold normalize aliasGet
      rw [h]
    rw [hv]
    have : v = pyStr "also sprach zarathustra" ∨ v = pyStr "you enjoy myself" := by
      simp only [ALIAS_MAP, List.lookup] at h
      split at h
      · cases h; exact Or.inl rfl
      · split at h
        · cases h; exact Or.inr rfl
        · exact absurd h (by simp)
    rcases this with h2 | h2 <;> rw [h2] <;> decide

/-- C5: for every draft order and every number of picks made so far,
`next_pick_player` returns pick number `picksSoFar + 1` and the player at
index `positionInRound = picksSoFar mod n` in odd rounds and at index
`n - 1 - positionInRound` in even rounds, where the round number is the
ceiling of `pickNumber / n`; for an empty order it returns the sentinel
("N/A", 0). -/
theorem next_pick_player_snake (order : List Str) (total_picks : ℕ) :
    (order = [] → next_pick_player order total_picks = (pyStr "N/A", 0)) ∧
    (order ≠ [] →
      next_pick_player order total_picks =
        (order.getD
          (if ⌈((total_picks + 1 : ℕ) : ℚ) / (order.length : ℚ)⌉ % 2 = 0
            then order.length - 1 - total_picks % order.length
            else total_picks % order.length)
          (pyStr "N/A"),
          total_picks + 1)) := by
  constructor
  · intro h; subst h; rfl
  · intro h
    have hn : 0 < order.length := List.length_pos.mpr h
    have hceil : ⌈((total_picks + 1 : ℕ) : ℚ) / (order.length : ℚ)⌉
        = ((total_picks + 1 + order.length - 1) / order.length : ℕ) :=
      ceil_div_nat _ _ hn
    rw [hceil]
    have hpar : ((((total_picks + 1 + order.length - 1) / order.length : ℕ) : ℤ) % 2 = 0)
        ↔ ((total_picks + 1 + order.length - 1) / order.length % 2 = 0) := by omega
    simp only [hpar]
    unfold next_pick_player
    rw [if_neg (by omega)]
    simp [Nat.add_sub_cancel]

/-- Witness for C5: with order [A, B, C] and 4 picks made, pick 5 falls in
round 2, which is reversed, so B is on the clock. -/
theorem next_pick_player_snake_witness :
    next_pick_player [pyStr "A", pyStr "B", pyStr "C"] 4 = (pyStr "B", 5) := by
  have h := (next_pick_player_snake [pyStr "A", pyStr "B", pyStr "C"] 4).2 (by decide)
  rw [h]
  norm_num [Int.ceil_eq_iff]

end Barnswallow
namespace Barnswallow

/-- C1 counterexample: a track of 1176000 ms lasts 19.6 precise minutes, so
the precise value lies in neither bonus bracket, yet the source awards
4 + 2 = 6 points because it evaluates the brackets on the rounded value 20. -/
theorem play_bonus_uses_rounded_minutes_cex :
    score_show_events [⟨pyStr "Tweezer", 1176000, []⟩]
      = [⟨pyStr "tweezer", 6, pyStr "Tweezer (20 min)"⟩] ∧
    1176000 < 20 * 60000 := ⟨by decide, by decide⟩

/-- C1 (amended): the first occurrence of a SongKey emits a Play event worth
4 base points, plus 2 exactly when the ROUNDED minute value lies in [20,30),
plus 3 exactly when the rounded value is at least 30; the label uses the same
rounded value. -/
theorem play_event_points_and_label (st : ScanState) (t : Track)
    (h : st.seen.contains (aliasGet (pyLower (pyStrip t.title))) = false) :
    (processTrack st t).events =
      st.events
        ++ [⟨aliasGet (pyLower (pyStrip t.title)),
             4 + (if 20 ≤ roundMin t.duration ∧ roundMin t.duration < 30 then 2
                  else if 30 ≤ roundMin t.duration then 3 else 0),
             pyStrip t.title ++ pyStr " (" ++ natToStr (roundMin t.duration) ++ pyStr " min)"⟩]
        ++ t.tags.filterMap (teaseOf (pyStrip t.title)) ∧
    (processTrack st t).seen = st.seen ++ [aliasGet (pyLower (pyStrip t.title))] := by
  have hpts : (if 20 ≤ roundMin t.duration ∧ roundMin t.duration < 30 then 4 + 2
      else if 30 ≤ roundMin t.duration then 4 + 3 else 4)
      = 4 + (if 20 ≤ roundMin t.duration ∧ roundMin t.duration < 30 then 2
          else if 30 ≤ roundMin t.duration then 3 else 0) := by
    split_ifs <;> rfl
  unfold processTrack
  simp only [h, Bool.false_eq_true, if_false, hpts]
  simp

/-- Witness for C1: the 19.6-minute Tweezer play from a fresh state. -/
theorem play_event_points_and_label_witness :
    (processTrack ⟨[], [], []⟩ ⟨pyStr "Tweezer", 1176000, []⟩).events
      = [⟨pyStr "tweezer", 6, pyStr "Tweezer (20 min)"⟩] := by
  have h := (play_event_points_and_label ⟨[], [], []⟩
    ⟨pyStr "Tweezer", 1176000, []⟩ (by decide)).1
  rw [h]
  decide

/-- C2: the source `append_scores` appends one row per player
unconditionally; recording the same (show date, totals) twice leaves two
ledger rows for the player and that date, not one. -/
theorem append_scores_duplicates_rows :
    append_scores
        (append_scores [] (pyStr "2025-06-20") [(pyStr "alice", 5)])
        (pyStr "2025-06-20") [(pyStr "alice", 5)]
      = [(pyStr "2025-06-20", pyStr "alice", 5),
         (pyStr "2025-06-20", pyStr "alice", 5)] := rfl

/-- C4: `write_pick` checks only that the player exists and has a free slot;
with alice already holding "tweezer", a pick of "Tweezer" by bob succeeds and
leaves the same SongKey under two different players. -/
theorem write_pick_allows_duplicate_songkey :
    write_pick [(pyStr "alice", [pyStr "tweezer"]), (pyStr "bob", [])]
        (pyStr "bob") (pyStr "Tweezer")
      = (true, [(pyStr "alice", [pyStr "tweezer"]),
                (pyStr "bob", [pyStr "tweezer"])]) := by decide

/-- C8: the tab-3 standings block drops the first data record
(`records[1:]` applied to a header-less record list): with two on-tour
ledger rows, alice with 5 points dated 2025-06-20 and bob with 3, alice is
missing from the aggregated standings entirely. -/
theorem standings_drops_first_record :
    standingsBlock [(20250620, pyStr "alice", 5), (20250620, pyStr "bob", 3)]
      = some [(pyStr "bob", 3)] := by decide

/-- C9 counterexample: the network-failure branch and the empty-payload
branch of `score_show` return the same value, so the two outcomes are not
distinguishable from the returned dicts. -/
theorem score_failure_branches_cex :
    ((score_show .netError [(pyStr "alice", [pyStr "tweezer"])]).breakdown,
      (score_show .netError [(pyStr "alice", [pyStr "tweezer"])]).totals)
    = ((score_show (.ok (some [])) [(pyStr "alice", [pyStr "tweezer"])]).breakdown,
      (score_show (.ok (some [])) [(pyStr "alice", [pyStr "tweezer"])]).totals) := rfl

/-- C9 (amended): on a network failure and on an absent or empty payload,
`score_show` returns the same empty result (no per-player zero totals, so
the caller, which persists only when `totals` is truthy, never records
fabricated zeros); the two branches differ only in the emitted UI message
(`st.error` against `st.warning`), not in the returned value. -/
theorem score_failure_branches_return_empty (board : Board) :
    score_show .netError board = ⟨some .upstreamError, [], []⟩ ∧
    score_show (.ok none) board = ⟨some .noSetlistData, [], []⟩ ∧
    score_show (.ok (some [])) board = ⟨some .noSetlistData, [], []⟩ ∧
    ScoreMsg.upstreamError ≠ ScoreMsg.noSetlistData :=
  ⟨rfl, rfl, rfl, by decide⟩

end Barnswallow
namespace Barnswallow

/-- C7: every tag named "tease" case-insensitively whose note is present
yields a 1-point Tease event keyed by the normalized note text before the
" by " delimiter, labelled with the teased title and the played title; the
teased song need not itself be played.  In particular a tease tag with note
"Simpsons Theme by Phish" on the 0-minute Simpsons scenario track yields the
1-point event for SongKey "simpsons theme". -/
theorem tease_event_emitted :
    (∀ (st : ScanState) (t : Track) (tag : Tag), tag ∈ t.tags →
      pyLower tag.name = pyStr "tease" → tag.notes ≠ [] →
      (⟨aliasGet (pyLower (pyStrip (splitFirst (pyStr " by ") (pyStrip tag.notes)))), 1,
        pyStrip (splitFirst (pyStr " by ") (pyStrip tag.notes))
          ++ pyStr " (Tease in " ++ pyStrip t.title ++ pyStr ")"⟩ : Event)
        ∈ (processTrack st t).events) ∧
    score_show_events
        [⟨mikes_title, 0, [⟨pyStr "tease", pyStr "Simpsons Theme by Phish"⟩]⟩]
      = [⟨normalize mikes_title, 4, mikes_title ++ pyStr " (0 min)"⟩,
         ⟨pyStr "simpsons theme", 1,
          pyStr "Simpsons Theme (Tease in " ++ mikes_title ++ pyStr ")"⟩] := by
  constructor
  · intro st t tag htag hname hnotes
    show _ ∈ _ ++ t.tags.filterMap (teaseOf (pyStrip t.title))
    refine List.mem_append.mpr (Or.inr ?_)
    refine List.mem_filterMap.mpr ⟨tag, htag, ?_⟩
    unfold teaseOf
    rw [if_pos]
    simp [hname, hnotes]
  · decide

/-- Witness for C7: the Simpsons Theme tease of the scenario, emitted from a
fresh scan state. -/
theorem tease_event_emitted_witness :
    (⟨pyStr "simpsons theme", 1,
      pyStr "Simpsons Theme (Tease in " ++ mikes_title ++ pyStr ")"⟩ : Event)
      ∈ (processTrack ⟨[], [], []⟩
          ⟨mikes_title, 0, [⟨pyStr "tease", pyStr "Simpsons Theme by Phish"⟩]⟩).events := by
  have h := tease_event_emitted.1 ⟨[], [], []⟩
      ⟨mikes_title, 0, [⟨pyStr "tease", pyStr "Simpsons Theme by Phish"⟩]⟩
      ⟨pyStr "tease", pyStr "Simpsons Theme by Phish"⟩
      (by decide) (by decide) (by decide)
  have heq : (⟨aliasGet (pyLower (pyStrip (splitFirst (pyStr " by ")
        (pyStrip (pyStr "Simpsons Theme by Phish"))))), 1,
        pyStrip (splitFirst (pyStr " by ") (pyStrip (pyStr "Simpsons Theme by Phish")))
          ++ pyStr " (Tease in " ++ pyStrip mikes_title ++ pyStr ")"⟩ : Event)
      = ⟨pyStr "simpsons theme", 1,
          pyStr "Simpsons Theme (Tease in " ++ mikes_title ++ pyStr ")"⟩ := by decide
  exact heq ▸ h

end Barnswallow
namespace Barnswallow

/-- C3 (spec-modelled): for a track carrying a bustout tag, the engine with
the bustout rule of the spec adds a fixed 10 points to the Play or Reprise
event of that track itself, and creates no separate standalone event: the
event list keeps the same length and differs from the plain one only in the
points of the track event. -/
theorem bustout_bonus_modifies_own_event (st : ScanState) (t : Track)
    (h : hasBustoutTag t = true) :
    ∃ own rest,
      (processTrack st t).events = st.events ++ own :: rest ∧
      (processTrackB st t).events
        = st.events ++ (⟨own.key, own.points + 10, own.label⟩ : Event) :: rest ∧
      (processTrackB st t).events.length = (processTrack st t).events.length := by
  by_cases hc : aliasGet (pyLower (pyStrip t.title)) ∈ st.seen
  · refine ⟨⟨aliasGet (pyLower (pyStrip t.title)), 2,
        pyStrip t.title ++ pyStr " (Reprise #"
          ++ natToStr ((match st.repC.lookup (aliasGet (pyLower (pyStrip t.title))) with
              | some n => n
              | none => 0) + 1) ++ pyStr ")"⟩,
      t.tags.filterMap (teaseOf (pyStrip t.title)), ?_, ?_, ?_⟩
    · simp [processTrack, hc]
    · simp [processTrackB, hc, h]
    · simp [processTrack, processTrackB, hc, h]
  · refine ⟨⟨aliasGet (pyLower (pyStrip t.title)),
        (if 20 ≤ roundMin t.duration ∧ roundMin t.duration < 30 then 4 + 2
          else if 30 ≤ roundMin t.duration then 4 + 3 else 4),
        pyStrip t.title ++ pyStr " (" ++ natToStr (roundMin t.duration) ++ pyStr " min)"⟩,
      t.tags.filterMap (teaseOf (pyStrip t.title)), ?_, ?_, ?_⟩
    · simp [processTrack, hc]
    · simp [processTrackB, hc, h]
    · simp [processTrack, processTrackB, hc, h]

/-- Witness for C3: a bustout-tagged 19.6-minute Tweezer from a fresh state
produces the same number of events with and without the bustout rule. -/
theorem bustout_bonus_modifies_own_event_witness :
    (processTrackB ⟨[], [], []⟩
        ⟨pyStr "Tweezer", 1176000, [⟨pyStr "bustout", []⟩]⟩).events.length
      = (processTrack ⟨[], [], []⟩
        ⟨pyStr "Tweezer", 1176000, [⟨pyStr "bustout", []⟩]⟩).events.length := by
  obtain ⟨own, rest, h1, h2, h3⟩ := bustout_bonus_modifies_own_event ⟨[], [], []⟩
    ⟨pyStr "Tweezer", 1176000, [⟨pyStr "bustout", []⟩]⟩ (by decide)
  exact h3

end Barnswallow
namespace Barnswallow

theorem sumValues_bumpLabel (m : List (Str × ℕ)) (label : Str) (pts : ℕ) :
    sumValues (bumpLabel m label pts) = sumValues m + pts := by
  induction m with
  | nil => simp [bumpLabel, sumValues]
  | cons kv rest ih =>
    obtain ⟨k, v⟩ := kv
    by_cases h : k == label
    · simp [bumpLabel, h, sumValues]
      omega
    · simp only [bumpLabel, h, if_false, Bool.false_eq_true]
      simp only [sumValues, List.map_cons, List.sum_cons] at *
      omega

theorem rel_modifyVal (p l : Str) (pts : ℕ) {bd : Breakdown} {tot : Totals}
    (h : List.Forall₂ rowConsistent bd tot) :
    List.Forall₂ rowConsistent
      (modifyVal bd p (fun m => bumpLabel m l pts))
      (modifyVal tot p (fun v => v + pts)) := by
  induction h with
  | nil => exact List.Forall₂.nil
  | cons hbt hrest ih =>
    rename_i b t bs ts
    obtain ⟨b1, b2⟩ := b
    obtain ⟨t1, t2⟩ := t
    obtain ⟨hfst, hsum⟩ := hbt
    simp only at hfst hsum
    subst hfst
    by_cases hp : b1 == p
    · simp only [modifyVal, hp, if_true]
      exact List.Forall₂.cons ⟨rfl, by simp only [sumValues_bumpLabel]; omega⟩ hrest
    · simp only [modifyVal, hp, Bool.false_eq_true, if_false]
      exact List.Forall₂.cons ⟨rfl, hsum⟩ ih

theorem rel_tallyStep (player pick_key : Str) (ev : Event) (acc : Breakdown × Totals)
    (h : List.Forall₂ rowConsistent acc.1 acc.2) :
    List.Forall₂ rowConsistent
      (tallyStep player pick_key ev acc).1 (tallyStep player pick_key ev acc).2 := by
  unfold tallyStep
  split
  · exact rel_modifyVal player ev.label ev.points h
  · exact h

theorem foldl_preserve {σ ι : Type} (P : σ → Prop) (f : σ → ι → σ) (l : List ι)
    (hf : ∀ s i, P s → P (f s i)) :
    ∀ s, P s → P (l.foldl f s) := by
  induction l with
  | nil => exact fun s hs => hs
  | cons a tl ih => exact fun s hs => ih _ (hf s a hs)

theorem tally_invariant (P : Breakdown × Totals → Prop)
    (hstep : ∀ p k ev acc, P acc → P (tallyStep p k ev acc))
    (events : List Event) (board : Board)
    (hinit : P (dictInit (board.map Prod.fst) [], dictInit (board.map Prod.fst) 0)) :
    P (tally events board) := by
  unfold tally
  apply foldl_preserve P _ _ ?_ _ hinit
  intro acc row hacc
  unfold tallyRow
  apply foldl_preserve P _ _ ?_ _ hacc
  intro acc2 pick h2
  unfold tallyPick
  split
  · exact h2
  · apply foldl_preserve P _ _ ?_ _ h2
    intro a ev ha
    exact hstep _ _ _ _ ha

theorem rel_dictInit (ps : List Str) :
    List.Forall₂ rowConsistent (dictInit ps ([] : List (Str × ℕ))) (dictInit ps (0 : ℕ)) := by
  unfold dictInit
  induction dedupFirst ps with
  | nil => exact List.Forall₂.nil
  | cons a tl ih => exact List.Forall₂.cons ⟨rfl, rfl⟩ ih

theorem map_fst_modifyVal {α : Type} (m : List (Str × α)) (k : Str) (f : α → α) :
    (modifyVal m k f).map Prod.fst = m.map Prod.fst := by
  induction m with
  | nil => rfl
  | cons kv rest ih =>
    obtain ⟨k0, v⟩ := kv
    by_cases h : k0 == k
    · simp [modifyVal, h]
    · simp [modifyVal, h, ih]

theorem map_fst_dictInit {α : Type} (ps : List Str) (v : α) :
    (dictInit ps v).map Prod.fst = dedupFirst ps := by
  unfold dictInit
  rw [List.map_map]
  exact List.map_id _

theorem mem_dedupFirst (p : Str) (ps : List Str) (h : p ∈ ps) : p ∈ dedupFirst ps := by
  induction ps with
  | nil => cases h
  | cons a tl ih =>
    rcases List.mem_cons.mp h with h1 | h2
    · exact h1 ▸ List.mem_cons_self _ _
    · by_cases hpa : p = a
      · exact hpa ▸ List.mem_cons_self _ _
      · refine List.mem_cons.mpr (Or.inr ?_)
        refine List.mem_filter.mpr ⟨ih h2, ?_⟩
        simp [hpa]

theorem keys_tally (events : List Event) (board : Board) :
    (tally events board).1.map Prod.fst = dedupFirst (board.map Prod.fst) ∧
    (tally events board).2.map Prod.fst = dedupFirst (board.map Prod.fst) := by
  apply tally_invariant (fun acc =>
    acc.1.map Prod.fst = dedupFirst (board.map Prod.fst) ∧
    acc.2.map Prod.fst = dedupFirst (board.map Prod.fst))
  · intro p k ev acc hacc
    unfold tallyStep
    split
    · exact ⟨by rw [map_fst_modifyVal]; exact hacc.1, by rw [map_fst_modifyVal]; exact hacc.2⟩
    · exact hacc
  · exact ⟨map_fst_dictInit _ _, map_fst_dictInit _ _⟩

theorem rel_tally (events : List Event) (board : Board) :
    List.Forall₂ rowConsistent (tally events board).1 (tally events board).2 := by
  apply tally_invariant (fun acc => List.Forall₂ rowConsistent acc.1 acc.2)
  · exact fun p k ev acc h => rel_tallyStep p k ev acc h
  · exact rel_dictInit _

/-- C10: on the scoring path, the totals and the breakdown of `score_show`
are mutually consistent: every board player appears as a key in both
returned dicts, the two dicts list the same players in the same order, and
each player total equals the sum of the points in that player breakdown. -/
theorem totals_match_breakdown (board : Board) (tracks : List Track)
    (h : tracks ≠ []) :
    (∀ row ∈ board,
      row.1 ∈ (score_show (.ok (some tracks)) board).breakdown.map Prod.fst ∧
      row.1 ∈ (score_show (.ok (some tracks)) board).totals.map Prod.fst) ∧
    List.Forall₂ rowConsistent
      (score_show (.ok (some tracks)) board).breakdown
      (score_show (.ok (some tracks)) board).totals := by
  have hne : tracks.isEmpty = false := by
    cases tracks
    · exact absurd rfl h
    · rfl
  have hres : score_show (.ok (some tracks)) board
      = ⟨none, (tally (score_show_events tracks) board).1,
          (tally (score_show_events tracks) board).2⟩ := by
    simp only [score_show, hne, Bool.false_eq_true, if_false]
  rw [hres]
  refine ⟨?_, rel_tally _ _⟩
  intro row hrow
  obtain ⟨h1, h2⟩ := keys_tally (score_show_events tracks) board
  have hm : row.1 ∈ dedupFirst (board.map Prod.fst) :=
    mem_dedupFirst _ _ (List.mem_map_of_mem Prod.fst hrow)
  exact ⟨by rw [h1]; exact hm, by rw [h2]; exact hm⟩

/-- Witness for C10: a one-player board and a single 22-minute Tweezer. -/
theorem totals_match_breakdown_witness :
    List.Forall₂ rowConsistent
      (score_show (.ok (some [⟨pyStr "Tweezer", 1320000, []⟩]))
        [(pyStr "alice", [pyStr "tweezer"])]).breakdown
      (score_show (.ok (some [⟨pyStr "Tweezer", 1320000, []⟩]))
        [(pyStr "alice", [pyStr "tweezer"])]).totals :=
  (totals_match_breakdown [(pyStr "alice", [pyStr "tweezer"])]
    [⟨pyStr "Tweezer", 1320000, []⟩] (by decide)).2

end Barnswallow
